import Mathlib

/-!
# Verification of `made` (clipboard-history tool)

Shallow embedding of the core of the `made` repository:

* `src/config.rs` — the persisted history store (`Config`, `push_text`);
* `src/main.rs`   — the TUI state machine (`Tui`: query editing, fuzzy
  filtering, selection, commit) and the hotkey capture callback;
* `src/pinyin.rs` — `match_pinyin`, a thin wrapper over the external
  `ib_pinyin` crate; the matcher itself is external and is modelled as an
  abstract boolean predicate parameter `m : String → String → Bool`.

Rust `String`s are modelled as Lean `String`s; character-level operations
(`chars().count()`, `chars().take/skip`) work on `String.toList`, and the
byte-level operations of the query editor (`char_indices`, `String::insert`)
are modelled over UTF-8 byte sizes (`Char.utf8Size`), with `Option` capturing
the panic of `String::insert` at a non-boundary index.  Fallible clipboard
calls are modelled with `Except`/`Option`.
-/

namespace Made

/-- Rust `str::trim`: the string with leading and trailing whitespace
characters removed (computed on the character list so that it evaluates
by kernel reduction; `Char.isWhitespace` stands for Rust's
`char::is_whitespace` — the claims only involve ASCII whitespace). -/
def rustTrim (s : String) : String :=
  String.mk
    (((s.toList.dropWhile Char.isWhitespace).reverse.dropWhile
      Char.isWhitespace).reverse)

/-! ## History store (`src/config.rs`) -/

/-- `Config::push_text` (src/config.rs:60-65):
```rust
pub fn push_text(&mut self, text: String) {
    if !self.texts.contains(&text) {
        self.texts.push(text.trim().to_owned());
        self.save();
    }
}
```
The membership test uses the *untrimmed* `text`; the value pushed is the
*trimmed* text.  (`save` is a durable write with no effect on `texts`.) -/
def push_text (texts : List String) (text : String) : List String :=
  if texts.contains text then texts else texts ++ [rustTrim text]

/-- A sequence of `push_text` calls, left to right. -/
def push_all (texts : List String) (inputs : List String) : List String :=
  inputs.foldl push_text texts

/-! ## Capture callback (`src/main.rs:41-46`)

```rust
hkm.register_hotkey(VKey::C, &[VKey::Menu], move || {
    let text = CLIPBOARD.lock().unwrap().get_text().unwrap();
    CONFIG.lock().unwrap().push_text(text);
    UPDATE_TUI_TEXT.store(true, Ordering::Relaxed);
})
```
`clip` is the result of the clipboard read (`get_text()`); `Except.error`
is a failed or non-text read.  The `.unwrap()` on that result panics the
capture thread on failure: the panic is modelled as `none`.  On success the
result is the new store contents and the value of the change flag. -/
def hotkeyCapture (clip : Except Unit String) (texts : List String) :
    Option (List String × Bool) :=
  match clip with
  | .error _ => none
  | .ok text => some (push_text texts text, true)

/-! ## UTF-8 byte arithmetic for the query editor

The query editor of `src/main.rs` mixes character offsets
(`character_index`, `chars().count()`) with byte offsets
(`byte_index`, `String::insert`).  We model a Rust `String`'s
characters as `String.toList` and compute byte offsets with
`Char.utf8Size`. -/

/-- Total UTF-8 byte length of a character list (Rust `str::len`). -/
def utf8Len (s : List Char) : Nat := (s.map Char.utf8Size).sum

/-- `Tui::byte_index` (src/main.rs:168-174):
```rust
self.search_text.char_indices().map(|(i, _)| i)
    .nth(self.character_index).unwrap_or(self.search_text.len())
```
the byte offset of the `k`-th character, or the total byte length when
`k` is at or past the end. -/
def byteIndexOf (s : List Char) (k : Nat) : Nat :=
  if k < s.length then utf8Len (s.take k) else utf8Len s

/-- Rust `String::insert(b, c)`: inserts `c` at byte offset `b`; panics
(modelled as `none`) when `b` is not a character boundary or past the end. -/
def insertAtByte (c : Char) : List Char → Nat → Option (List Char)
  | s, 0 => some (c :: s)
  | [], _ + 1 => none
  | x :: s, b + 1 =>
    if b + 1 < x.utf8Size then none
    else (insertAtByte c s (b + 1 - x.utf8Size)).map (x :: ·)

/-! ## TUI state (`src/main.rs`)

`Tui` keeps the fields the state machine reads and writes: `exit`,
`search_text`, `character_index`, the entry list `items`
(`text_list.items`), the `ListState` selection (`text_list.state`,
an `Option Nat` display index into the filtered list), and
`filtered_indices`.  `scrollbar_state` is render-only and omitted.
The fuzzy matcher `match_pinyin` (src/pinyin.rs, a wrapper over the
external `ib_pinyin` crate) is an abstract parameter
`m : String → String → Bool`, and the clipboard write-back
(`Clipboard::set_text`) an abstract parameter
`setText : String → Except String Unit`. -/

structure Tui where
  exit : Bool
  search_text : String
  character_index : Nat
  items : List String
  selected : Option Nat
  filtered_indices : List Nat
deriving Repr, DecidableEq

/-- `Tui::clamp_cursor` (src/main.rs:176-178):
`new_cursor_pos.clamp(0, self.search_text.chars().count())`. -/
def Tui.clamp_cursor (t : Tui) (newPos : Nat) : Nat :=
  min newPos t.search_text.toList.length

/-- `Tui::byte_index` applied to the current state. -/
def Tui.byte_index (t : Tui) : Nat :=
  byteIndexOf t.search_text.toList t.character_index

/-- `Tui::enter_char` (src/main.rs:180-185): insert at `byte_index`
(the `getD` fallback is the panic branch of `String::insert`, proved
unreachable below), then advance and clamp the cursor against the
updated text. -/
def Tui.enter_char (t : Tui) (c : Char) : Tui :=
  let s := (insertAtByte c t.search_text.toList t.byte_index).getD t.search_text.toList
  { t with search_text := String.mk s,
           character_index := min (t.character_index + 1) s.length }

/-- `Tui::delete_char` (src/main.rs:222-235): when the cursor is not
leftmost, keep the characters before `character_index - 1` and from
`character_index` on, then move the cursor left and clamp it against
the updated text. -/
def Tui.delete_char (t : Tui) : Tui :=
  if t.character_index ≠ 0 then
    let s := t.search_text.toList.take (t.character_index - 1) ++
      t.search_text.toList.drop t.character_index
    { t with search_text := String.mk s,
             character_index := min (t.character_index - 1) s.length }
  else t

/-- `Tui::select_next` (src/main.rs:187-199). -/
def Tui.select_next (t : Tui) : Tui :=
  if t.filtered_indices.length = 0 then t
  else
    let next := match t.selected with
      | some i => if i + 1 < t.filtered_indices.length then i + 1 else 0
      | none => 0
    { t with selected := some next }

/-- `Tui::select_previous` (src/main.rs:200-212). -/
def Tui.select_previous (t : Tui) : Tui :=
  if t.filtered_indices.length = 0 then t
  else
    let prev := match t.selected with
      | some 0 | none => t.filtered_indices.length - 1
      | some (i + 1) => i
    { t with selected := some prev }

/-- Modelled from the spec: `Tui::select_first` (src/main.rs:214-216)
delegates to `ListState::select_first` of the external ratatui crate,
whose source is not part of this repository; the spec says select
first/last "jumps to filtered-list bounds". -/
def Tui.select_first (t : Tui) : Tui :=
  { t with selected := some 0 }

/-- Modelled from the spec: `Tui::select_last` (src/main.rs:218-220)
delegates to `ListState::select_last` of the external ratatui crate,
whose source is not part of this repository; the spec says select
first/last "jumps to filtered-list bounds", i.e. the last valid index
of the filtered list. -/
def Tui.select_last (t : Tui) : Tui :=
  { t with selected := some (t.filtered_indices.length - 1) }

/-- `Tui::rebuild_filter` (src/main.rs:237-264): trim the query; when
empty, clear the filtered list and the selection; otherwise keep the
indices of the entries the matcher accepts, in entry order, and reset
the selection to `0` (or `none` when nothing matched). -/
def Tui.rebuild_filter (m : String → String → Bool) (t : Tui) : Tui :=
  let search := rustTrim t.search_text
  if search.isEmpty then
    { t with filtered_indices := [], selected := none }
  else
    let fi := t.items.enum.filterMap fun p =>
      if m search p.2 then some p.1 else none
    { t with filtered_indices := fi,
             selected := if fi.isEmpty then none else some 0 }

/-- `Tui::update_text_list` (src/main.rs:105-113): when the change flag
is observed set, replace the entry list with the current store contents
(selection reset to `Some(0)` by `ListState::default().with_selected`)
and rebuild the filter.  The `while swap` loop is level-triggered — every
observed-set iteration performs this same replacement with the then
current store — so one observation is modelled. -/
def Tui.update_text_list (m : String → String → Bool) (t : Tui)
    (flag : Bool) (cfgTexts : List String) : Tui :=
  if flag then
    Tui.rebuild_filter m { t with items := cfgTexts, selected := some 0 }
  else t

/-- Key events handled by `Tui::handle_events` (press events only;
non-press events and unhandled keys leave the state unchanged). -/
inductive KeyEvent where
  | esc | down | up | left | right | home | endKey | backspace
  | char (c : Char) | enter
deriving Repr, DecidableEq

/-- `Tui::handle_events` (src/main.rs:115-166), one dispatched key press.
The Enter branch reads `text_list.items[real_index]` (a Rust index that
panics out of bounds — shown in bounds below, modelled with `getD`) and
propagates a clipboard `set_text` failure with `?`. -/
def Tui.handle_events (m : String → String → Bool)
    (setText : String → Except String Unit) (t : Tui) (k : KeyEvent) :
    Except String Tui :=
  match k with
  | .esc =>
    if (rustTrim t.search_text).isEmpty then .ok { t with exit := true }
    else .ok (Tui.rebuild_filter m { t with search_text := "" })
  | .down => .ok t.select_next
  | .up => .ok t.select_previous
  | .left => .ok { t with character_index := t.clamp_cursor (t.character_index - 1) }
  | .right => .ok { t with character_index := t.clamp_cursor (t.character_index + 1) }
  | .home => .ok t.select_first
  | .endKey => .ok t.select_last
  | .backspace => .ok (Tui.rebuild_filter m t.delete_char)
  | .char c => .ok (Tui.rebuild_filter m (t.enter_char c))
  | .enter =>
    match t.selected with
    | some sel =>
      match t.filtered_indices.get? sel with
      | some real_index =>
        match setText (t.items.getD real_index "") with
        | .ok _ => .ok t
        | .error e => .error e
      | none => .ok t
    | none => .ok t

/-- One iteration of `Tui::run` (src/main.rs:95-103): when not exited,
dispatch the key event (`handle_events()?` — an error terminates the
loop) and then poll the change flag (`update_text_list`). -/
def Tui.run_step (m : String → String → Bool)
    (setText : String → Except String Unit) (t : Tui) (k : KeyEvent)
    (flag : Bool) (cfgTexts : List String) : Except String Tui :=
  if t.exit then .ok t
  else
    match t.handle_events m setText k with
    | .error e => .error e
    | .ok t' => .ok (t'.update_text_list m flag cfgTexts)

/-! ## Derived definitions used by the properties -/

/-- Query-editor operations of `Tui::handle_events`: cursor left/right
(src/main.rs:135-142), character insertion (`KeyCode::Char`) and
deletion (`KeyCode::Backspace`). -/
inductive EditOp where
  | left | right | ins (c : Char) | del
deriving Repr, DecidableEq

/-- Apply one editor operation, exactly as the corresponding
`handle_events` branch does. -/
def applyEdit (t : Tui) : EditOp → Tui
  | .left => { t with character_index := t.clamp_cursor (t.character_index - 1) }
  | .right => { t with character_index := t.clamp_cursor (t.character_index + 1) }
  | .ins c => t.enter_char c
  | .del => t.delete_char

/-- Apply a sequence of editor operations, left to right. -/
def applyEdits (t : Tui) (ops : List EditOp) : Tui :=
  ops.foldl applyEdit t

/-- The filtered list holds strictly increasing valid indices into the
entry list (the indirection invariant behind the Enter-commit lookup). -/
def goodIndices (t : Tui) : Prop :=
  t.filtered_indices.Pairwise (· < ·) ∧
  ∀ i ∈ t.filtered_indices, i < t.items.length

end Made

namespace Made

/-! ## Helper lemmas -/


theorem enumFrom_filterMap_eq {α : Type} (f : α → Bool) (d : α) :
    ∀ (l : List α) (n : Nat),
      (List.enumFrom n l).filterMap (fun p => if f p.2 then some p.1 else none)
        = ((List.range l.length).filter fun i => f (l.getD i d)).map (· + n)
  | [], n => rfl
  | a :: l, n => by
    have ih := enumFrom_filterMap_eq f d l (n + 1)
    have hcomp : ((fun i => i + n) ∘ fun i => i + 1) = fun i => i + (n + 1) := by
      funext i; simp [Nat.add_assoc, Nat.add_comm 1 n]
    have hfun : ((fun i => f ((a :: l)[i]?.getD d)) ∘ Nat.succ) = fun i => f (l[i]?.getD d) := by
      funext i; simp
    simp only [List.enumFrom, List.filterMap_cons, List.length_cons,
      List.range_succ_eq_map, List.filter_cons, List.getD_cons_zero, ih]
    by_cases hfa : f a
    · simp [hfa, List.filter_map, List.map_map, hcomp]; rw [hfun]
    · simp [hfa, List.filter_map, List.map_map, hcomp]; rw [hfun]

theorem enum_filterMap_eq {α : Type} (f : α → Bool) (d : α) (l : List α) :
    l.enum.filterMap (fun p => if f p.2 then some p.1 else none)
      = (List.range l.length).filter fun i => f (l.getD i d) := by
  simpa using enumFrom_filterMap_eq f d l 0



theorem insertAtByte_boundary (c : Char) :
    ∀ (s : List Char) (k : Nat), k ≤ s.length →
      insertAtByte c s (utf8Len (s.take k)) = some (s.insertIdx k c)
  | s, 0, _ => by simp [insertAtByte, utf8Len]
  | [], k + 1, h => absurd h (by simp)
  | x :: s, k + 1, h => by
    have hpos : 0 < x.utf8Size := Char.utf8Size_pos x
    have hrec := insertAtByte_boundary c s k (by simpa using h)
    have hlen : utf8Len ((x :: s).take (k + 1)) = x.utf8Size + utf8Len (s.take k) := by
      simp [utf8Len]
    obtain ⟨b, hb⟩ : ∃ b, x.utf8Size + utf8Len (s.take k) = b + 1 :=
      ⟨x.utf8Size + utf8Len (s.take k) - 1, by omega⟩
    rw [hlen, hb]
    have hsub : b + 1 - x.utf8Size = utf8Len (s.take k) := by omega
    simp only [insertAtByte, if_neg (by omega : ¬ b + 1 < x.utf8Size), hsub, hrec]
    rfl

theorem byteIndexOf_eq (s : List Char) (k : Nat) :
    byteIndexOf s k = utf8Len (s.take (min k s.length)) := by
  unfold byteIndexOf
  split
  · rw [Nat.min_eq_left (by omega)]
  · rw [Nat.min_eq_right (by omega), List.take_length]

theorem insertAtByte_byteIndexOf (c : Char) (s : List Char) (k : Nat) :
    insertAtByte c s (byteIndexOf s k) = some (s.insertIdx (min k s.length) c) := by
  rw [byteIndexOf_eq]
  exact insertAtByte_boundary c s (min k s.length) (Nat.min_le_right _ _)



theorem enter_char_toList (t : Tui) (c : Char) :
    (t.enter_char c).search_text.toList =
      t.search_text.toList.insertIdx
        (min t.character_index t.search_text.toList.length) c := by
  simp [Tui.enter_char, Tui.byte_index, insertAtByte_byteIndexOf]

theorem applyEdit_cursor_le (t : Tui) (op : EditOp)
    (h : t.character_index ≤ t.search_text.toList.length) :
    (applyEdit t op).character_index ≤ (applyEdit t op).search_text.toList.length := by
  cases op with
  | left => exact min_le_right _ _
  | right => exact min_le_right _ _
  | ins c => exact min_le_right _ _
  | del =>
    simp only [applyEdit, Tui.delete_char]
    split
    · exact min_le_right _ _
    · exact h

theorem applyEdits_cursor_le (ops : List EditOp) : ∀ (t : Tui),
    t.character_index ≤ t.search_text.toList.length →
    (applyEdits t ops).character_index ≤ (applyEdits t ops).search_text.toList.length := by
  induction ops with
  | nil => intro t h; exact h
  | cons op ops ih =>
    intro t h
    exact ih (applyEdit t op) (applyEdit_cursor_le t op h)



theorem rebuild_filter_indices (m : String → String → Bool) (t : Tui) :
    (t.rebuild_filter m).filtered_indices =
      if (rustTrim t.search_text).isEmpty then []
      else (List.range t.items.length).filter
        fun i => m (rustTrim t.search_text) (t.items.getD i "") := by
  by_cases h : (rustTrim t.search_text).isEmpty
  · simp [Tui.rebuild_filter, h]
  · simp [Tui.rebuild_filter, h,
      enum_filterMap_eq (m (rustTrim t.search_text)) "" t.items]

theorem rebuild_filter_items (m : String → String → Bool) (t : Tui) :
    (t.rebuild_filter m).items = t.items := by
  simp only [Tui.rebuild_filter]
  split <;> rfl

theorem goodIndices_rebuild (m : String → String → Bool) (t : Tui) :
    goodIndices (t.rebuild_filter m) := by
  constructor
  · rw [rebuild_filter_indices]
    split
    · exact List.Pairwise.nil
    · exact (List.pairwise_lt_range _).filter _
  · intro i hi
    rw [rebuild_filter_items]
    rw [rebuild_filter_indices] at hi
    split at hi
    · simp at hi
    · exact List.mem_range.mp (List.mem_filter.mp hi).1

theorem goodIndices_of_eq_fields {t t' : Tui} (h : goodIndices t)
    (hf : t'.filtered_indices = t.filtered_indices) (hi : t'.items = t.items) :
    goodIndices t' := by
  rw [goodIndices, hf, hi]
  exact h

theorem goodIndices_update_text_list (m : String → String → Bool) (t : Tui)
    (flag : Bool) (cfg : List String) (h : goodIndices t) :
    goodIndices (t.update_text_list m flag cfg) := by
  unfold Tui.update_text_list
  split
  · exact goodIndices_rebuild m _
  · exact h

theorem goodIndices_handle_events (m : String → String → Bool)
    (st : String → Except String Unit) (t : Tui) (k : KeyEvent)
    (h : goodIndices t) :
    ∀ t', t.handle_events m st k = .ok t' → goodIndices t' := by
  intro t' ht'
  cases k with
  | esc =>
    simp only [Tui.handle_events] at ht'
    split at ht'
    · cases ht'
      exact goodIndices_of_eq_fields h rfl rfl
    · cases ht'
      exact goodIndices_rebuild m _
  | down =>
    cases ht'
    refine goodIndices_of_eq_fields h ?_ ?_ <;>
      (simp only [Tui.select_next]; split <;> rfl)
  | up =>
    cases ht'
    refine goodIndices_of_eq_fields h ?_ ?_ <;>
      (simp only [Tui.select_previous]; split <;> rfl)
  | left => cases ht'; exact goodIndices_of_eq_fields h rfl rfl
  | right => cases ht'; exact goodIndices_of_eq_fields h rfl rfl
  | home => cases ht'; exact goodIndices_of_eq_fields h rfl rfl
  | endKey => cases ht'; exact goodIndices_of_eq_fields h rfl rfl
  | backspace => cases ht'; exact goodIndices_rebuild m _
  | char c => cases ht'; exact goodIndices_rebuild m _
  | enter =>
    revert ht'
    simp only [Tui.handle_events]
    repeat' split
    all_goals intro ht'
    all_goals cases ht'
    all_goals exact h


end Made

namespace Made

/-! ## Claim theorems -/


theorem rustTrim_empty : rustTrim "" = "" := rfl

/-- C1: the dedup invariant fails on the code. `push_text` tests
membership of the *untrimmed* input but stores the *trimmed* text, so
pushing `" a "` twice appends two entries that are equal as trimmed
strings — the second push is not a no-op although its trimmed value
`"a"` (= `rustTrim " a "`) is already in the store. -/
theorem push_text_trim_dedup_violated :
    push_all [] [" a ", " a "] = ["a", "a"] ∧ rustTrim " a " = "a" :=
  ⟨rfl, rfl⟩

/-- C2: rebuilding the filter with a query whose trimmed form is
non-empty yields exactly the indices whose entry the fuzzy matcher
accepts (the matcher receives the trimmed query), in entry-list order
(strictly increasing); with a trim-empty query it yields the empty
list. -/
theorem rebuild_filter_exact (m : String → String → Bool) (t : Tui) :
    (t.rebuild_filter m).filtered_indices =
      (if (rustTrim t.search_text).isEmpty then []
       else (List.range t.items.length).filter
         fun i => m (rustTrim t.search_text) (t.items.getD i "")) ∧
    (t.rebuild_filter m).filtered_indices.Pairwise (· < ·) :=
  ⟨rebuild_filter_indices m t, (goodIndices_rebuild m t).1⟩

/-- C3: on a failed or non-text clipboard read the capture callback
does not drop the attempt silently: `get_text().unwrap()` panics the
capture thread (the `none` outcome) instead of ignoring the failure. -/
theorem capture_read_failure_panics :
    hotkeyCapture (Except.error ()) ["x"] = none := rfl

/-- C4 counterexample: with a failing clipboard write-back, committing
the selection makes the `run` iteration return the error — the UI
event loop does not keep running after the failed commit, contrary to
the claim. -/
theorem commit_failure_stops_event_loop :
    Tui.run_step (fun _ _ => true) (fun _ => Except.error "set_text failed")
      ⟨false, "a", 1, ["x"], some 0, [0]⟩ KeyEvent.enter false []
      = Except.error "set_text failed" := rfl

/-- C4 (amended): a failure of the clipboard `set_text` write-back on
commit surfaces as an operational error (not a panic) that propagates
out of `handle_events` via `?` and terminates the UI event loop:
`run`'s iteration returns the error instead of continuing. -/
theorem commit_failure_propagates (m : String → String → Bool)
    (st : String → Except String Unit) (t : Tui) (sel ri : Nat) (e : String)
    (flag : Bool) (cfg : List String)
    (hexit : t.exit = false) (hsel : t.selected = some sel)
    (hget : t.filtered_indices.get? sel = some ri)
    (hst : st (t.items.getD ri "") = Except.error e) :
    t.run_step m st KeyEvent.enter flag cfg = Except.error e := by
  simp only [Tui.run_step, Tui.handle_events, hexit, hsel, hget, hst]
  simp

/-- Witness for the amended C4 theorem at a concrete state. -/
theorem commit_failure_propagates_witness :
    Tui.run_step (fun _ _ => false) (fun _ => Except.error "boom")
      ⟨false, "", 0, ["y"], some 0, [0]⟩ KeyEvent.enter true ["y"]
      = Except.error "boom" :=
  commit_failure_propagates _ _ _ 0 0 "boom" true ["y"] rfl rfl rfl rfl

/-- C5: every filter rebuild resets the selection: afterwards it is
index 0 of the filtered list when that list is non-empty and `none`
when it is empty, regardless of the previous selection. -/
theorem rebuild_filter_selection_reset (m : String → String → Bool) (t : Tui) :
    (t.rebuild_filter m).selected =
      if (t.rebuild_filter m).filtered_indices.isEmpty then none else some 0 := by
  by_cases h : (rustTrim t.search_text).isEmpty
  · simp only [Tui.rebuild_filter]
    rw [if_pos h]
    simp
  · simp only [Tui.rebuild_filter]
    rw [if_neg h]



/-- C6: over any sequence of cursor moves, insertions and deletions,
the cursor offset stays within `[0, character count]`; the byte offset
used for insertion is always a character boundary, so `String::insert`
never panics and inserts exactly at the cursor's code point (also in
multi-byte text), and deletion removes exactly the code point before
the cursor — the query string is never corrupted. -/
theorem cursor_bounds_and_insert_safe (t : Tui) (ops : List EditOp)
    (h : t.character_index ≤ t.search_text.toList.length) :
    (applyEdits t ops).character_index ≤
      (applyEdits t ops).search_text.toList.length ∧
    (∀ c : Char,
      insertAtByte c (applyEdits t ops).search_text.toList
          (applyEdits t ops).byte_index
        = some ((applyEdits t ops).search_text.toList.insertIdx
            (applyEdits t ops).character_index c)) ∧
    (∀ c : Char,
      ((applyEdits t ops).enter_char c).search_text.toList =
        (applyEdits t ops).search_text.toList.insertIdx
          (applyEdits t ops).character_index c) ∧
    (applyEdits t ops).delete_char.search_text.toList =
      (applyEdits t ops).search_text.toList.take
          ((applyEdits t ops).character_index - 1) ++
        (applyEdits t ops).search_text.toList.drop
          (applyEdits t ops).character_index := by
  have hb := applyEdits_cursor_le ops t h
  refine ⟨hb, ?_, ?_, ?_⟩
  · intro c
    have h2 := insertAtByte_byteIndexOf c (applyEdits t ops).search_text.toList
      (applyEdits t ops).character_index
    rw [Nat.min_eq_left hb] at h2
    exact h2
  · intro c
    have h3 := enter_char_toList (applyEdits t ops) c
    rw [Nat.min_eq_left hb] at h3
    exact h3
  · by_cases h0 : (applyEdits t ops).character_index = 0
    · simp [Tui.delete_char, h0]
    · simp [Tui.delete_char, h0]

/-- Witness for C6 on multi-byte text: starting from query `"héllo"`
with the cursor at character 2, after an insertion, two left moves and
a deletion the cursor is still within the character count. -/
theorem cursor_bounds_and_insert_safe_witness :
    (applyEdits ⟨false, "héllo", 2, [], none, []⟩
      [EditOp.ins 'ß', EditOp.left, EditOp.left, EditOp.del]).character_index ≤
    (applyEdits ⟨false, "héllo", 2, [], none, []⟩
      [EditOp.ins 'ß', EditOp.left, EditOp.left, EditOp.del]).search_text.toList.length :=
  (cursor_bounds_and_insert_safe ⟨false, "héllo", 2, [], none, []⟩
    [EditOp.ins 'ß', EditOp.left, EditOp.left, EditOp.del] (by decide)).1

/-- C7: on a non-empty filtered list, select-next from the last
position wraps to 0 and otherwise advances by one; select-previous
from position 0 wraps to the last position and otherwise goes back by
one; on an empty filtered list both are no-ops. -/
theorem select_wraparound (t : Tui) (i : Nat)
    (hi : i < t.filtered_indices.length) :
    (({ t with selected := some i } : Tui).select_next).selected =
      some (if i = t.filtered_indices.length - 1 then 0 else i + 1) ∧
    (({ t with selected := some i } : Tui).select_previous).selected =
      some (if i = 0 then t.filtered_indices.length - 1 else i - 1) ∧
    (∀ u : Tui, u.filtered_indices = [] →
      u.select_next = u ∧ u.select_previous = u) := by
  refine ⟨?_, ?_, ?_⟩
  · simp only [Tui.select_next]
    rw [if_neg (by omega : ¬ t.filtered_indices.length = 0)]
    have he : (if i + 1 < t.filtered_indices.length then i + 1 else 0)
        = (if i = t.filtered_indices.length - 1 then 0 else i + 1) := by
      split_ifs <;> omega
    exact congrArg some he
  · cases i with
    | zero =>
      simp only [Tui.select_previous]
      rw [if_neg (by omega : ¬ t.filtered_indices.length = 0)]
      simp
    | succ j =>
      simp only [Tui.select_previous]
      rw [if_neg (by omega : ¬ t.filtered_indices.length = 0)]
      simp
  · intro u hu
    constructor <;> simp [Tui.select_next, Tui.select_previous, hu]

/-- Witness for C7 with three filtered entries and the selection at the
last position: select-next wraps to 0, select-previous moves to 1. -/
theorem select_wraparound_witness :
    ((⟨false, "q", 0, ["a", "b", "c"], some 2, [0, 1, 2]⟩ : Tui).select_next).selected
      = some 0 ∧
    ((⟨false, "q", 0, ["a", "b", "c"], some 2, [0, 1, 2]⟩ : Tui).select_previous).selected
      = some 1 := by
  have h := select_wraparound ⟨false, "q", 0, ["a", "b", "c"], none, [0, 1, 2]⟩ 2
    (by decide)
  exact ⟨h.1, h.2.1⟩



/-- C8: on a non-empty filtered list, select-first selects index 0 of
the filtered list and select-last selects its last valid index (length
minus one).  (`select_first`/`select_last` are modelled from the spec:
they delegate to ratatui's `ListState`, which is not part of this
repository.) -/
theorem select_first_last_bounds (t : Tui) (_h : t.filtered_indices ≠ []) :
    t.select_first.selected = some 0 ∧
    t.select_last.selected = some (t.filtered_indices.length - 1) :=
  ⟨rfl, rfl⟩

/-- Witness for C8 on a two-element filtered list. -/
theorem select_first_last_bounds_witness :
    (Tui.select_first ⟨false, "q", 1, ["a", "b"], none, [0, 1]⟩).selected = some 0 ∧
    (Tui.select_last ⟨false, "q", 1, ["a", "b"], none, [0, 1]⟩).selected = some 1 :=
  select_first_last_bounds ⟨false, "q", 1, ["a", "b"], none, [0, 1]⟩ (by decide)

/-- C9 counterexample: with the whitespace-only — hence non-empty —
query `" "`, Esc exits (`exit` becomes `true`) and leaves the query
unchanged, instead of resetting the query and rebuilding without
exiting. -/
theorem esc_whitespace_query_exits :
    (Tui.handle_events (fun _ _ => false) (fun _ => Except.ok ())
        ⟨false, " ", 1, ["a"], none, []⟩ KeyEvent.esc
      = Except.ok ⟨true, " ", 1, ["a"], none, []⟩) ∧
    (" " : String) ≠ "" :=
  ⟨rfl, by decide⟩

/-- C9 (amended): Esc with a query whose *trimmed* form is non-empty
resets the query to empty and rebuilds the filter — empty filtered
list, no selection, and no exit; Esc when the trimmed query is empty
(the query is empty or whitespace-only) sets the exit flag instead. -/
theorem esc_clear_or_exit (m : String → String → Bool)
    (st : String → Except String Unit) (t : Tui) :
    t.handle_events m st KeyEvent.esc =
      Except.ok
        (if (rustTrim t.search_text).isEmpty then { t with exit := true }
         else { t with search_text := "", filtered_indices := [],
                       selected := none }) := by
  by_cases h : (rustTrim t.search_text).isEmpty
  · simp only [Tui.handle_events]
    rw [if_pos h, if_pos h]
  · simp only [Tui.handle_events]
    rw [if_neg h, if_neg h]
    simp only [Tui.rebuild_filter, rustTrim_empty]
    rw [if_pos (show ("" : String).isEmpty = true from rfl)]

/-- C10: from any state satisfying the filtered-list invariant
(strictly increasing indices, all within the entry list), every UI
transition preserves it — the filter rebuild, any handled key followed
by the change-signal reload — and the Enter-commit lookup through the
filtered-list indirection is in bounds. -/
theorem filtered_indices_in_bounds (m : String → String → Bool)
    (st : String → Except String Unit) (t : Tui) (k : KeyEvent)
    (flag : Bool) (cfg : List String) (h : goodIndices t) :
    goodIndices (t.rebuild_filter m) ∧
    goodIndices (t.update_text_list m flag cfg) ∧
    (∀ t', t.handle_events m st k = Except.ok t' →
      goodIndices (t'.update_text_list m flag cfg)) ∧
    ∀ sel ri, t.selected = some sel →
      t.filtered_indices.get? sel = some ri → ri < t.items.length := by
  refine ⟨goodIndices_rebuild m t,
    goodIndices_update_text_list m t flag cfg h, ?_, ?_⟩
  · intro t' ht'
    exact goodIndices_update_text_list m t' flag cfg
      (goodIndices_handle_events m st t k h t' ht')
  · intro sel ri hsel hget
    exact h.2 ri (List.get?_mem hget)

/-- Witness for C10 at a concrete state: the committed entry index is
in bounds. -/
theorem filtered_indices_in_bounds_witness :
    (0 : Nat) < (["hey"] : List String).length := by
  have h := filtered_indices_in_bounds (fun _ _ => true)
    (fun _ => Except.ok ()) ⟨false, "h", 1, ["hey"], some 0, [0]⟩
    KeyEvent.down true ["hey"] (by constructor <;> decide)
  exact h.2.2.2 0 0 rfl rfl


end Made
